import Mathlib

/-!
Verification of the chargeback record store of `arkantrust/idempotency_example`.

The development is a shallow embedding of the Go sources:

* `backend/models/chargeback.go` — the `Chargeback` record type; `time.Time`
  UTC instants are modelled as `Nat`.
* `backend/store/bolt.go` — the BoltDB-backed `Store` with its five
  operations `Create`, `Update`, `Delete`, `Get`, `List`. The single bolt
  bucket `"chargebacks"` is modelled as an association list from keys to
  decoded records; the JSON codec round-trips exactly on every stored field,
  so it is absorbed into the model (values are stored decoded). Each
  operation runs inside exactly one bolt transaction: we model an operation
  as a function from the pre-transaction bucket to the post-transaction
  bucket together with its result; an error returned from inside a write
  transaction rolls the transaction back, so on the error path the returned
  bucket is the unchanged input bucket. `time.Now().UTC()` becomes an
  explicit `now : Nat` argument.
* `backend/handlers/chargebacks.go` — the `create` handler (POST), modelled
  over the same state, with the JSON response body kept symbolic.
-/

/-- `models.Chargeback`: ID (the idempotency key and storage key), the three
mutable fields Amount (smallest currency unit, `int64`), Currency and Reason,
and the two UTC timestamps, modelled as `Nat` instants. -/
structure Chargeback where
  ID : String
  Amount : Int
  Currency : String
  Reason : String
  CreatedAt : Nat
  UpdatedAt : Nat
deriving DecidableEq, Repr

/-- The bolt bucket `"chargebacks"`: key-to-record association list. -/
abbrev Bucket := List (String × Chargeback)

/-- bolt `b.Get(k)`: the value of the first binding for `k`, or `none`. -/
def bucketGet (b : Bucket) (k : String) : Option Chargeback :=
  match b with
  | [] => none
  | (k', v) :: rest => if k' = k then some v else bucketGet rest k

/-- bolt `b.Put(k, v)`: replace the binding for `k` if present, otherwise
add it. -/
def bucketPut (b : Bucket) (k : String) (v : Chargeback) : Bucket :=
  match b with
  | [] => [(k, v)]
  | (k', v') :: rest =>
      if k' = k then (k, v) :: rest else (k', v') :: bucketPut rest k v

/-- bolt `b.Delete(k)`: remove the binding for `k`; absence is a no-op. -/
def bucketDelete (b : Bucket) (k : String) : Bucket :=
  match b with
  | [] => []
  | (k', v') :: rest =>
      if k' = k then bucketDelete rest k else (k', v') :: bucketDelete rest k

/-- `store.ErrNotFound` ("chargeback not found"), the only application-level
error value defined by the store package. -/
inductive StoreError where
  | NotFound
deriving DecidableEq, Repr

/-- `Store.Create` (bolt.go): inside one write transaction, look up
`c.ID`. If present, return the stored record unchanged with
`created = false` and perform no write. If absent, stamp
`CreatedAt = UpdatedAt = now` and persist the full record under `c.ID`
with `created = true`. -/
def Store.Create (b : Bucket) (now : Nat) (c : Chargeback) :
    Bucket × Except StoreError (Chargeback × Bool) :=
  match bucketGet b c.ID with
  | some existing => (b, Except.ok (existing, false))
  | none =>
      let stamped : Chargeback := { c with CreatedAt := now, UpdatedAt := now }
      (bucketPut b c.ID stamped, Except.ok (stamped, true))

/-- `Store.Update` (bolt.go): inside one write transaction, load the stored
record, failing `ErrNotFound` if absent (the transaction rolls back, so the
bucket is returned unchanged). If the three mutable fields of the incoming
payload all equal the stored values, skip the write and return the stored
record with `written = false`. Otherwise overwrite the three mutable
fields, set `UpdatedAt = now`, persist, and return `written = true`. -/
def Store.Update (b : Bucket) (now : Nat) (id : String) (incoming : Chargeback) :
    Bucket × Except StoreError (Chargeback × Bool) :=
  match bucketGet b id with
  | none => (b, Except.error StoreError.NotFound)
  | some existing =>
      if existing.Amount = incoming.Amount ∧ existing.Currency = incoming.Currency ∧
          existing.Reason = incoming.Reason then
        (b, Except.ok (existing, false))
      else
        let updated : Chargeback :=
          { existing with
              Amount := incoming.Amount
              Currency := incoming.Currency
              Reason := incoming.Reason
              UpdatedAt := now }
        (bucketPut b id updated, Except.ok (updated, true))

/-- `Store.Delete` (bolt.go): inside one write transaction, remove the key;
deleting an absent key is a no-op and a success, never an error. -/
def Store.Delete (b : Bucket) (id : String) : Bucket × Except StoreError Unit :=
  (bucketDelete b id, Except.ok ())

/-- `Store.Get` (bolt.go): read transaction; `ErrNotFound` if the key is
absent, otherwise a copy of the decoded record. -/
def Store.Get (b : Bucket) (id : String) : Except StoreError Chargeback :=
  match bucketGet b id with
  | none => Except.error StoreError.NotFound
  | some c => Except.ok c

/-- The `ForEach` accumulation inside `Store.List` (bolt.go): Go's
`var items []models.Chargeback` starts as the nil slice (`none`); each
visited pair appends its decoded record, making the slice non-nil. -/
def listAccum (b : Bucket) : Option (List Chargeback) :=
  b.foldl (fun acc p => some (acc.getD [] ++ [p.2])) none

/-- `Store.List` (bolt.go): read transaction decoding every value in the
bucket; a nil accumulated slice is replaced by the empty slice so the JSON
encoder emits `[]` rather than `null`. -/
def Store.List (b : Bucket) : List Chargeback :=
  (listAccum b).getD []

/-- The body of an HTTP response written by the handlers: either the JSON
encoding of one record (`writeJSON` on a `*models.Chargeback`) or a JSON
error object (`writeError`). The encoding itself is kept symbolic. -/
inductive RespBody where
  | record (r : Chargeback)
  | errObj (msg : String)
deriving DecidableEq, Repr

/-- An HTTP response: status code plus body. -/
structure Response where
  status : Nat
  body : RespBody
deriving DecidableEq, Repr

/-- `Handler.create` (chargebacks.go): POST `/chargebacks/{id}` with an
already-decoded JSON body. A missing path id is a 400; otherwise the body's
ID is overwritten with the path id and `Store.Create` is called: on engine
failure a 500, otherwise 201 when `created` and 200 when not, with the
record returned by the store as the body in both cases. -/
def Handler.create (b : Bucket) (now : Nat) (id : String) (body : Chargeback) :
    Bucket × Response :=
  if id = "" then
    (b, ⟨400, RespBody.errObj "missing id in path"⟩)
  else
    match Store.Create b now { body with ID := id } with
    | (b', Except.ok (result, created)) =>
        (b', ⟨if created then 201 else 200, RespBody.record result⟩)
    | (b', Except.error _) =>
        (b', ⟨500, RespBody.errObj "failed to create chargeback"⟩)

/-! ### Operation sequences

A reachable store state is the result of running a sequence of mutating
operations from the empty bucket. `Op` records the clock reading each
mutating call observes. -/

/-- One mutating store call together with the `time.Now()` instant it
would observe. -/
inductive Op where
  | create (now : Nat) (c : Chargeback)
  | update (now : Nat) (id : String) (p : Chargeback)
  | delete (id : String)

/-- State transition of one mutating call (result value discarded). -/
def applyOp (b : Bucket) : Op → Bucket
  | Op.create now c => (Store.Create b now c).1
  | Op.update now id p => (Store.Update b now id p).1
  | Op.delete id => (Store.Delete b id).1

/-- Run a sequence of mutating calls from a starting bucket. -/
def runOps (b : Bucket) (ops : List Op) : Bucket :=
  ops.foldl applyOp b

/-- The clock instant an operation observes (`Delete` reads no clock). -/
def opTime : Op → Option Nat
  | Op.create now _ => some now
  | Op.update now _ _ => some now
  | Op.delete _ => none

/-- The clock readings along a sequence are nondecreasing and at least `t`:
real time does not run backwards between calls. -/
def chronFrom : Nat → List Op → Bool
  | _, [] => true
  | t, op :: rest =>
      match opTime op with
      | none => chronFrom t rest
      | some n => decide (t ≤ n) && chronFrom n rest

/-- The record for `id` is present after every step of the sequence. -/
def presentAlong : Bucket → String → List Op → Bool
  | _, _, [] => true
  | b, id, op :: rest =>
      (bucketGet (applyOp b op) id).isSome && presentAlong (applyOp b op) id rest

/-! ### Bucket lemmas -/

theorem bucketGet_put_self (b : Bucket) (k : String) (v : Chargeback) :
    bucketGet (bucketPut b k v) k = some v := by
  induction b with
  | nil => simp [bucketPut, bucketGet]
  | cons hd tl ih =>
      obtain ⟨k', v'⟩ := hd
      by_cases hk : k' = k
      · simp [bucketPut, hk, bucketGet]
      · simp [bucketPut, hk, bucketGet, ih]

theorem bucketGet_put_ne (b : Bucket) (k k' : String) (v : Chargeback)
    (h : k' ≠ k) : bucketGet (bucketPut b k v) k' = bucketGet b k' := by
  induction b with
  | nil => simp [bucketPut, bucketGet, Ne.symm h]
  | cons hd tl ih =>
      obtain ⟨k0, v0⟩ := hd
      by_cases hk : k0 = k
      · subst hk
        simp [bucketPut, bucketGet, Ne.symm h]
      · simp [bucketPut, hk, bucketGet, ih]

theorem bucketGet_delete_self (b : Bucket) (k : String) :
    bucketGet (bucketDelete b k) k = none := by
  induction b with
  | nil => simp [bucketDelete, bucketGet]
  | cons hd tl ih =>
      obtain ⟨k0, v0⟩ := hd
      by_cases hk : k0 = k
      · simp [bucketDelete, hk, ih]
      · simp [bucketDelete, hk, bucketGet, ih]

theorem bucketGet_delete_ne (b : Bucket) (k k' : String) (h : k' ≠ k) :
    bucketGet (bucketDelete b k) k' = bucketGet b k' := by
  induction b with
  | nil => simp [bucketDelete]
  | cons hd tl ih =>
      obtain ⟨k0, v0⟩ := hd
      by_cases hk : k0 = k
      · subst hk
        simp [bucketDelete, bucketGet, Ne.symm h, ih]
      · simp [bucketDelete, hk, bucketGet, ih]

theorem bucketDelete_idem (b : Bucket) (k : String) :
    bucketDelete (bucketDelete b k) k = bucketDelete b k := by
  induction b with
  | nil => simp [bucketDelete]
  | cons hd tl ih =>
      obtain ⟨k0, v0⟩ := hd
      by_cases hk : k0 = k
      · simp [bucketDelete, hk, ih]
      · simp [bucketDelete, hk, ih]

theorem bucketGet_mem (b : Bucket) (k : String) (v : Chargeback)
    (h : bucketGet b k = some v) : (k, v) ∈ b := by
  induction b with
  | nil => simp [bucketGet] at h
  | cons hd tl ih =>
      obtain ⟨k0, v0⟩ := hd
      by_cases hk : k0 = k
      · subst hk
        simp [bucketGet] at h
        simp [h]
      · simp [bucketGet, hk] at h
        simp [ih h]

theorem mem_bucketPut (b : Bucket) (k : String) (v : Chargeback)
    (p : String × Chargeback) (h : p ∈ bucketPut b k v) :
    p = (k, v) ∨ p ∈ b := by
  induction b with
  | nil => simp [bucketPut] at h; simp [h]
  | cons hd tl ih =>
      obtain ⟨k0, v0⟩ := hd
      by_cases hk : k0 = k
      · simp [bucketPut, hk] at h
        rcases h with h | h
        · exact Or.inl h
        · exact Or.inr (List.mem_cons_of_mem _ h)
      · simp [bucketPut, hk] at h
        rcases h with h | h
        · exact Or.inr (by simp [h])
        · rcases ih h with h' | h'
          · exact Or.inl h'
          · exact Or.inr (List.mem_cons_of_mem _ h')

theorem mem_bucketDelete (b : Bucket) (k : String)
    (p : String × Chargeback) (h : p ∈ bucketDelete b k) : p ∈ b := by
  induction b with
  | nil => simp [bucketDelete] at h
  | cons hd tl ih =>
      obtain ⟨k0, v0⟩ := hd
      by_cases hk : k0 = k
      · simp [bucketDelete, hk] at h
        exact List.mem_cons_of_mem _ (ih h)
      · simp [bucketDelete, hk] at h
        rcases h with h | h
        · simp [h]
        · exact List.mem_cons_of_mem _ (ih h)

/-! ### Timestamp invariant machinery -/

/-- Every record in the bucket satisfies `CreatedAt ≤ UpdatedAt`. -/
def TsOrdered (b : Bucket) : Prop :=
  ∀ p ∈ b, (Prod.snd p).CreatedAt ≤ (Prod.snd p).UpdatedAt

/-- Every record in the bucket was last written at or before instant `t`. -/
def TsBounded (b : Bucket) (t : Nat) : Prop :=
  ∀ p ∈ b, (Prod.snd p).UpdatedAt ≤ t

theorem tsBounded_mono (b : Bucket) (t t' : Nat) (h : t ≤ t')
    (hb : TsBounded b t) : TsBounded b t' :=
  fun p hp => le_trans (hb p hp) h

theorem create_preserves_ts (b : Bucket) (now : Nat) (c : Chargeback)
    (hInv : TsOrdered b) (hB : TsBounded b now) :
    TsOrdered (Store.Create b now c).1 ∧ TsBounded (Store.Create b now c).1 now := by
  unfold Store.Create
  cases hget : bucketGet b c.ID with
  | some existing => exact ⟨hInv, hB⟩
  | none =>
      constructor
      · intro p hp
        rcases mem_bucketPut _ _ _ _ hp with h | h
        · subst h; simp
        · exact hInv p h
      · intro p hp
        rcases mem_bucketPut _ _ _ _ hp with h | h
        · subst h; simp
        · exact hB p h

theorem update_preserves_ts (b : Bucket) (now : Nat) (id : String)
    (q : Chargeback) (hInv : TsOrdered b) (hB : TsBounded b now) :
    TsOrdered (Store.Update b now id q).1 ∧
      TsBounded (Store.Update b now id q).1 now := by
  unfold Store.Update
  cases hget : bucketGet b id with
  | none => exact ⟨hInv, hB⟩
  | some existing =>
      by_cases hc : existing.Amount = q.Amount ∧ existing.Currency = q.Currency ∧
          existing.Reason = q.Reason
      · simp only [if_pos hc]
        exact ⟨hInv, hB⟩
      · simp only [if_neg hc]
        have hmem : (id, existing) ∈ b := bucketGet_mem b id existing hget
        constructor
        · intro p hp
          rcases mem_bucketPut _ _ _ _ hp with h | h
          · subst h
            simpa using le_trans (hInv _ hmem) (hB _ hmem)
          · exact hInv p h
        · intro p hp
          rcases mem_bucketPut _ _ _ _ hp with h | h
          · subst h; simp
          · exact hB p h

theorem delete_preserves_ts (b : Bucket) (t : Nat) (id : String)
    (hInv : TsOrdered b) (hB : TsBounded b t) :
    TsOrdered (Store.Delete b id).1 ∧ TsBounded (Store.Delete b id).1 t := by
  unfold Store.Delete
  exact ⟨fun p hp => hInv p (mem_bucketDelete _ _ _ hp),
         fun p hp => hB p (mem_bucketDelete _ _ _ hp)⟩

theorem runOps_preserves_ts (ops : List Op) :
    ∀ (b : Bucket) (t : Nat), TsOrdered b → TsBounded b t →
      chronFrom t ops = true → TsOrdered (runOps b ops) := by
  induction ops with
  | nil =>
      intro b t hInv _ _
      simpa [runOps] using hInv
  | cons op rest ih =>
      intro b t hInv hB hchron
      have hrun : runOps b (op :: rest) = runOps (applyOp b op) rest := by
        simp [runOps]
      rw [hrun]
      cases op with
      | create now c =>
          have hch : t ≤ now ∧ chronFrom now rest = true := by
            simpa [chronFrom, opTime, Bool.and_eq_true, decide_eq_true_iff] using hchron
          have hB' : TsBounded b now := tsBounded_mono b t now hch.1 hB
          have hstep := create_preserves_ts b now c hInv hB'
          exact ih _ now hstep.1 hstep.2 hch.2
      | update now id q =>
          have hch : t ≤ now ∧ chronFrom now rest = true := by
            simpa [chronFrom, opTime, Bool.and_eq_true, decide_eq_true_iff] using hchron
          have hB' : TsBounded b now := tsBounded_mono b t now hch.1 hB
          have hstep := update_preserves_ts b now id q hInv hB'
          exact ih _ now hstep.1 hstep.2 hch.2
      | delete id =>
          have hch : chronFrom t rest = true := by
            simpa [chronFrom, opTime] using hchron
          have hstep := delete_preserves_ts b t id hInv hB
          exact ih _ t hstep.1 hstep.2 hch

theorem createdAt_step (b : Bucket) (op : Op) (id : String) (r r' : Chargeback)
    (h : bucketGet b id = some r) (h' : bucketGet (applyOp b op) id = some r') :
    r'.CreatedAt = r.CreatedAt := by
  cases op with
  | create now c =>
      simp only [applyOp, Store.Create] at h'
      cases hget : bucketGet b c.ID with
      | some existing =>
          rw [hget] at h'
          simp only [] at h'
          rw [h'] at h
          exact congrArg Chargeback.CreatedAt (Option.some.inj h).symm ▸ rfl
      | none =>
          rw [hget] at h'
          simp only [] at h'
          by_cases hid : id = c.ID
          · subst hid
            rw [h] at hget
            exact absurd hget (by simp)
          · rw [bucketGet_put_ne b c.ID id _ hid] at h'
            rw [h'] at h
            rw [Option.some.inj h]
  | update now uid q =>
      simp only [applyOp, Store.Update] at h'
      cases hget : bucketGet b uid with
      | none =>
          rw [hget] at h'
          simp only [] at h'
          rw [h'] at h
          rw [Option.some.inj h]
      | some existing =>
          rw [hget] at h'
          simp only [] at h'
          by_cases hc : existing.Amount = q.Amount ∧ existing.Currency = q.Currency ∧
              existing.Reason = q.Reason
          · rw [if_pos hc] at h'
            simp only [] at h'
            rw [h'] at h
            rw [Option.some.inj h]
          · rw [if_neg hc] at h'
            simp only [] at h'
            by_cases hid : id = uid
            · subst hid
              rw [bucketGet_put_self] at h'
              rw [h] at hget
              have hex : r = existing := Option.some.inj hget
              have hr' := (Option.some.inj h').symm
              rw [hr', hex]
            · rw [bucketGet_put_ne b uid id _ hid] at h'
              rw [h'] at h
              rw [Option.some.inj h]
  | delete did =>
      simp only [applyOp, Store.Delete] at h'
      by_cases hid : id = did
      · subst hid
        rw [bucketGet_delete_self] at h'
        exact absurd h' (by simp)
      · rw [bucketGet_delete_ne b did id hid] at h'
        rw [h'] at h
        rw [Option.some.inj h]

theorem createdAt_run (ops : List Op) :
    ∀ (b : Bucket) (id : String) (r : Chargeback),
      bucketGet b id = some r → presentAlong b id ops = true →
      ∃ r', bucketGet (runOps b ops) id = some r' ∧ r'.CreatedAt = r.CreatedAt := by
  induction ops with
  | nil =>
      intro b id r h _
      exact ⟨r, by simpa [runOps] using h, rfl⟩
  | cons op rest ih =>
      intro b id r h hpres
      have hp : (bucketGet (applyOp b op) id).isSome = true ∧
          presentAlong (applyOp b op) id rest = true := by
        simpa [presentAlong, Bool.and_eq_true] using hpres
      obtain ⟨r1, hr1⟩ := Option.isSome_iff_exists.mp hp.1
      have hstep := createdAt_step b op id r r1 h hr1
      obtain ⟨r', hget', hCA⟩ := ih (applyOp b op) id r1 hr1 hp.2
      refine ⟨r', by simpa [runOps] using hget', ?_⟩
      rw [hCA, hstep]

/-! ### Sample records used by the witnesses -/

/-- Sample candidate, after the test `TestCreateIdempotency`. -/
def cbA : Chargeback := ⟨"a", 1000, "USD", "dup", 0, 0⟩

/-- Sample stored record, after the test `TestUpdateWriteAvoidance`. -/
def recB : Chargeback := ⟨"b", 500, "EUR", "fraud", 3, 3⟩

/-- A one-record bucket holding `recB`. -/
def bucketB : Bucket := [("b", recB)]

/-! ### The claims -/

/-- C1: Create-once. If the candidate's ID is absent, `Create` stamps
`CreatedAt = UpdatedAt = now`, persists the record under the ID and returns
`created = true`; if present, it returns the previously stored record
unchanged (its original `CreatedAt` included), ignores every field of the
candidate, performs no write, and returns `created = false`. -/
theorem C1_create_once (b : Bucket) (now : Nat) (c : Chargeback) :
    (∀ stored, bucketGet b c.ID = some stored →
       Store.Create b now c = (b, Except.ok (stored, false))) ∧
    (bucketGet b c.ID = none →
       Store.Create b now c =
         (bucketPut b c.ID { c with CreatedAt := now, UpdatedAt := now },
          Except.ok ({ c with CreatedAt := now, UpdatedAt := now }, true)) ∧
       bucketGet (Store.Create b now c).1 c.ID =
         some { c with CreatedAt := now, UpdatedAt := now }) := by
  constructor
  · intro stored h
    simp [Store.Create, h]
  · intro h
    refine ⟨by simp [Store.Create, h], ?_⟩
    simp [Store.Create, h, bucketGet_put_self]

/-- C1 witness: a second `Create` for `"b"` with a different Amount returns
the stored `recB` unchanged with `created = false`; a first `Create` for
`"a"` on the empty bucket persists the stamped record with
`created = true`. -/
theorem C1_create_once_witness :
    Store.Create bucketB 7 { recB with Amount := 9999 } =
      (bucketB, Except.ok (recB, false)) ∧
    Store.Create [] 5 cbA =
      ([("a", { cbA with CreatedAt := 5, UpdatedAt := 5 })],
       Except.ok ({ cbA with CreatedAt := 5, UpdatedAt := 5 }, true)) := by
  constructor
  · exact (C1_create_once bucketB 7 { recB with Amount := 9999 }).1 recB (by decide)
  · exact ((C1_create_once [] 5 cbA).2 (by decide)).1

/-- C2: Update no-op law. With the record present and the payload's three
mutable fields equal to the stored values, `Update` returns the stored
record with `written = false`, leaving the bucket (hence `UpdatedAt`)
unchanged; repeating any successful `Update` with the same payload is a
no-op returning the same state and record; and a returned record whose
`UpdatedAt` differs from the stored one can only arise when at least one of
the three mutable fields changed. -/
theorem C2_update_noop (b : Bucket) (now : Nat) (id : String)
    (p stored : Chargeback) (h : bucketGet b id = some stored) :
    (stored.Amount = p.Amount ∧ stored.Currency = p.Currency ∧
        stored.Reason = p.Reason →
      Store.Update b now id p = (b, Except.ok (stored, false))) ∧
    (∀ now' b' r w, Store.Update b now id p = (b', Except.ok (r, w)) →
      Store.Update b' now' id p = (b', Except.ok (r, false))) ∧
    (∀ b' r w, Store.Update b now id p = (b', Except.ok (r, w)) →
      r.UpdatedAt ≠ stored.UpdatedAt →
      ¬(stored.Amount = p.Amount ∧ stored.Currency = p.Currency ∧
          stored.Reason = p.Reason)) := by
  refine ⟨?_, ?_, ?_⟩
  · intro hc
    simp [Store.Update, h, hc]
  · intro now' b' r w hup
    simp only [Store.Update, h] at hup
    by_cases hc : stored.Amount = p.Amount ∧ stored.Currency = p.Currency ∧
        stored.Reason = p.Reason
    · rw [if_pos hc] at hup
      simp only [Prod.mk.injEq, Except.ok.injEq] at hup
      obtain ⟨hb', hr, hw⟩ := hup
      subst hb'
      rw [← hr]
      simp [Store.Update, h, hc]
    · rw [if_neg hc] at hup
      simp only [Prod.mk.injEq, Except.ok.injEq] at hup
      obtain ⟨hb', hr, hw⟩ := hup
      subst hb'
      rw [← hr]
      simp [Store.Update, bucketGet_put_self]
  · intro b' r w hup hne hc
    apply hne
    simp only [Store.Update, h, if_pos hc] at hup
    simp only [Prod.mk.injEq, Except.ok.injEq] at hup
    rw [← hup.2.1]

/-- C2 witness: updating `"b"` with a payload whose three mutable fields
match `recB` is a no-op, and repeating an effectful update with the same
payload is a no-op on the new state. -/
theorem C2_update_noop_witness :
    Store.Update bucketB 9 "b" ⟨"", 500, "EUR", "fraud", 0, 0⟩ =
      (bucketB, Except.ok (recB, false)) ∧
    Store.Update [("b", { recB with Amount := 999, UpdatedAt := 9 })] 11 "b"
        ⟨"", 999, "EUR", "fraud", 0, 0⟩ =
      ([("b", { recB with Amount := 999, UpdatedAt := 9 })],
       Except.ok ({ recB with Amount := 999, UpdatedAt := 9 }, false)) := by
  constructor
  · exact (C2_update_noop bucketB 9 "b" ⟨"", 500, "EUR", "fraud", 0, 0⟩ recB
      (by decide)).1 (by decide)
  · exact (C2_update_noop bucketB 9 "b" ⟨"", 999, "EUR", "fraud", 0, 0⟩ recB
      (by decide)).2.1 11 _ _ true (by rfl)

/-- C3: Update effect law. With the record present and at least one of the
payload's three mutable fields differing from the stored values, and the
clock strictly past the stored `UpdatedAt`, `Update` returns
`written = true`, the persisted record's mutable fields equal the
payload's, and its `UpdatedAt` is strictly greater than the previous
one. -/
theorem C3_update_effect (b : Bucket) (now : Nat) (id : String)
    (p stored : Chargeback) (h : bucketGet b id = some stored)
    (hdiff : ¬(stored.Amount = p.Amount ∧ stored.Currency = p.Currency ∧
        stored.Reason = p.Reason))
    (hclock : stored.UpdatedAt < now) :
    ∃ r, Store.Update b now id p = (bucketPut b id r, Except.ok (r, true)) ∧
      r.Amount = p.Amount ∧ r.Currency = p.Currency ∧ r.Reason = p.Reason ∧
      r.CreatedAt = stored.CreatedAt ∧
      bucketGet (Store.Update b now id p).1 id = some r ∧
      stored.UpdatedAt < r.UpdatedAt := by
  refine ⟨{ stored with
              Amount := p.Amount
              Currency := p.Currency
              Reason := p.Reason
              UpdatedAt := now }, ?_, rfl, rfl, rfl, rfl, ?_, hclock⟩
  · simp [Store.Update, h, hdiff]
  · simp [Store.Update, h, hdiff, bucketGet_put_self]

/-- C3 witness: updating `"b"` with Amount 999 writes the new record and
advances `UpdatedAt` from 3 to 9. -/
theorem C3_update_effect_witness :
    ∃ r, Store.Update bucketB 9 "b" ⟨"", 999, "EUR", "fraud", 0, 0⟩ =
        (bucketPut bucketB "b" r, Except.ok (r, true)) ∧
      r.Amount = 999 ∧ r.Currency = "EUR" ∧ r.Reason = "fraud" ∧
      r.CreatedAt = recB.CreatedAt ∧
      bucketGet (Store.Update bucketB 9 "b" ⟨"", 999, "EUR", "fraud", 0, 0⟩).1 "b" =
        some r ∧
      recB.UpdatedAt < r.UpdatedAt :=
  C3_update_effect bucketB 9 "b" ⟨"", 999, "EUR", "fraud", 0, 0⟩ recB
    (by decide) (by decide) (by decide)

/-- C4: Update on an absent ID fails `NotFound` and leaves the store state
unchanged: the transaction rolls back, the ID remains absent, and every
key's binding is exactly as before. -/
theorem C4_update_absent (b : Bucket) (now : Nat) (id : String)
    (p : Chargeback) (h : bucketGet b id = none) :
    Store.Update b now id p = (b, Except.error StoreError.NotFound) ∧
    bucketGet (Store.Update b now id p).1 id = none ∧
    (∀ k, bucketGet (Store.Update b now id p).1 k = bucketGet b k) := by
  refine ⟨by simp [Store.Update, h], ?_, ?_⟩
  · simp [Store.Update, h]
  · intro k
    simp [Store.Update, h]

/-- C4 witness: updating the absent `"missing"` on a one-record bucket
fails `NotFound` and changes nothing. -/
theorem C4_update_absent_witness :
    Store.Update bucketB 9 "missing" ⟨"", 0, "", "", 0, 0⟩ =
      (bucketB, Except.error StoreError.NotFound) :=
  (C4_update_absent bucketB 9 "missing" ⟨"", 0, "", "", 0, 0⟩ (by decide)).1

/-- C5: Delete idempotence. `Delete` succeeds whether or not the id is
present, afterwards the id is absent and `Get` fails `NotFound` (after the
first and after a repeated delete), and a second `Delete` is exactly the
first's result: Delete ∘ Delete = Delete. -/
theorem C5_delete_idempotent (b : Bucket) (id : String) :
    (Store.Delete b id).2 = Except.ok () ∧
    (Store.Delete (Store.Delete b id).1 id).2 = Except.ok () ∧
    bucketGet (Store.Delete b id).1 id = none ∧
    Store.Get (Store.Delete b id).1 id = Except.error StoreError.NotFound ∧
    Store.Get (Store.Delete (Store.Delete b id).1 id).1 id =
      Except.error StoreError.NotFound ∧
    Store.Delete (Store.Delete b id).1 id = Store.Delete b id := by
  refine ⟨rfl, rfl, ?_, ?_, ?_, ?_⟩
  · simp [Store.Delete, bucketGet_delete_self]
  · simp [Store.Get, Store.Delete, bucketGet_delete_self]
  · simp [Store.Get, Store.Delete, bucketGet_delete_self, bucketDelete_idem]
  · simp [Store.Delete, bucketDelete_idem]

/-- C5 witness: deleting `"b"` twice from the one-record bucket succeeds
both times and leaves `"b"` absent. -/
theorem C5_delete_idempotent_witness :
    bucketGet (Store.Delete bucketB "b").1 "b" = none ∧
    Store.Delete (Store.Delete bucketB "b").1 "b" = Store.Delete bucketB "b" :=
  ⟨(C5_delete_idempotent bucketB "b").2.2.1,
   (C5_delete_idempotent bucketB "b").2.2.2.2.2⟩

/-- C6: Timestamp invariants. Along any sequence of mutating operations
whose clock readings do not run backwards, every record of the reachable
state satisfies `CreatedAt ≤ UpdatedAt`; and across any operation sequence
during which a given record stays present, its `CreatedAt` never changes
(`CreatedAt` is set exactly once, at creation). -/
theorem C6_timestamp_invariants (ops : List Op) :
    (chronFrom 0 ops = true →
       ∀ id r, bucketGet (runOps [] ops) id = some r →
         r.CreatedAt ≤ r.UpdatedAt) ∧
    (∀ b id r, bucketGet b id = some r → presentAlong b id ops = true →
       ∃ r', bucketGet (runOps b ops) id = some r' ∧
         r'.CreatedAt = r.CreatedAt) := by
  constructor
  · intro hch id r hget
    have hInv : TsOrdered (runOps [] ops) :=
      runOps_preserves_ts ops [] 0 (by intro pr hpr; simp at hpr)
        (by intro pr hpr; simp at hpr) hch
    exact hInv _ (bucketGet_mem _ _ _ hget)
  · intro b id r hget hpres
    exact createdAt_run ops b id r hget hpres

/-- C6 witness: after a create at instant 1 followed by an effectful update
at instant 2, the stored record satisfies `CreatedAt ≤ UpdatedAt`; and
across that update the record's `CreatedAt` stays 1. -/
theorem C6_timestamp_invariants_witness :
    (⟨"a", 7, "USD", "dup", 1, 2⟩ : Chargeback).CreatedAt ≤
      (⟨"a", 7, "USD", "dup", 1, 2⟩ : Chargeback).UpdatedAt ∧
    ∃ r', bucketGet (runOps [("a", ⟨"a", 1000, "USD", "dup", 1, 1⟩)]
        [Op.update 2 "a" ⟨"", 7, "USD", "dup", 0, 0⟩]) "a" = some r' ∧
      r'.CreatedAt = (⟨"a", 1000, "USD", "dup", 1, 1⟩ : Chargeback).CreatedAt := by
  constructor
  · exact (C6_timestamp_invariants
      [Op.create 1 cbA, Op.update 2 "a" ⟨"", 7, "USD", "dup", 0, 0⟩]).1
      (by decide) "a" ⟨"a", 7, "USD", "dup", 1, 2⟩ (by decide)
  · exact (C6_timestamp_invariants
      [Op.update 2 "a" ⟨"", 7, "USD", "dup", 0, 0⟩]).2
      [("a", ⟨"a", 1000, "USD", "dup", 1, 1⟩)] "a"
      ⟨"a", 1000, "USD", "dup", 1, 1⟩ (by decide) (by decide)

/-- C7: NotFound taxonomy. `Update` and `Get` return `ErrNotFound` exactly
when the requested id is absent; `Create` and `Delete` never return an
error (in particular never `ErrNotFound`) for any input. -/
theorem C7_notfound_taxonomy (b : Bucket) (now : Nat) (id : String)
    (p c : Chargeback) :
    ((Store.Update b now id p).2 = Except.error StoreError.NotFound ↔
       bucketGet b id = none) ∧
    (Store.Get b id = Except.error StoreError.NotFound ↔
       bucketGet b id = none) ∧
    (∀ e : StoreError, (Store.Create b now c).2 ≠ Except.error e) ∧
    (∀ e : StoreError, (Store.Delete b id).2 ≠ Except.error e) := by
  refine ⟨?_, ?_, ?_, ?_⟩
  · cases hget : bucketGet b id with
    | none => simp [Store.Update, hget]
    | some existing =>
        simp only [Store.Update, hget]
        constructor
        · intro hcontra
          by_cases hc : existing.Amount = p.Amount ∧
              existing.Currency = p.Currency ∧ existing.Reason = p.Reason
          · rw [if_pos hc] at hcontra
            exact absurd hcontra (by simp)
          · rw [if_neg hc] at hcontra
            exact absurd hcontra (by simp)
        · intro hcontra
          exact absurd hcontra (by simp)
  · cases hget : bucketGet b id with
    | none => simp [Store.Get, hget]
    | some existing => simp [Store.Get, hget]
  · intro e
    cases hget : bucketGet b c.ID with
    | none => simp [Store.Create, hget]
    | some existing => simp [Store.Create, hget]
  · intro e
    simp [Store.Delete]

/-- C7 witness: on the one-record bucket, `Update` and `Get` of the absent
id `"missing"` return `ErrNotFound`, and `Create` of an already-present
candidate returns no error. -/
theorem C7_notfound_taxonomy_witness :
    (Store.Update bucketB 9 "missing" recB).2 =
      Except.error StoreError.NotFound ∧
    Store.Get bucketB "missing" = Except.error StoreError.NotFound ∧
    (Store.Create bucketB 9 recB).2 ≠
      Except.error StoreError.NotFound := by
  refine ⟨?_, ?_, ?_⟩
  · exact (C7_notfound_taxonomy bucketB 9 "missing" recB recB).1.mpr (by decide)
  · exact (C7_notfound_taxonomy bucketB 9 "missing" recB recB).2.1.mpr (by decide)
  · exact (C7_notfound_taxonomy bucketB 9 "missing" recB recB).2.2.1
      StoreError.NotFound

/-- Accumulating the fold of `Store.List` from a non-nil slice appends one
decoded record per remaining key. -/
theorem listAccum_go (b : Bucket) :
    ∀ l : List Chargeback,
      b.foldl (fun acc p => some (acc.getD [] ++ [p.2])) (some l) =
        some (l ++ b.map Prod.snd) := by
  induction b with
  | nil => intro l; simp
  | cons hd tl ih =>
      intro l
      simp [ih, List.append_assoc]

/-- C8: List emptiness. On the empty bucket `List` returns the empty
sequence (a real, non-nil slice, never null); in general a successful
`List` returns exactly one decoded record per stored key. -/
theorem C8_list (b : Bucket) :
    Store.List ([] : Bucket) = [] ∧
    Store.List b = b.map Prod.snd ∧
    (Store.List b).length = b.length := by
  have hmain : Store.List b = b.map Prod.snd := by
    cases b with
    | nil => rfl
    | cons hd tl =>
        simp [Store.List, listAccum, listAccum_go]
  exact ⟨rfl, hmain, by simp [hmain]⟩

/-- C8 witness: `List` of the empty bucket is `[]`, and `List` of the
one-record bucket is exactly its one record. -/
theorem C8_list_witness :
    Store.List ([] : Bucket) = [] ∧ Store.List bucketB = [recB] :=
  ⟨(C8_list []).1, (C8_list bucketB).2.1⟩

/-- C9: Boundary create mapping. For a POST with a non-empty path id whose
store call succeeds, the handler responds 201 when the store reports
`created = true` and 200 otherwise, and in both cases the body is the JSON
encoding of the record returned by the store. -/
theorem C9_create_boundary (b : Bucket) (now : Nat) (id : String)
    (body r : Chargeback) (created : Bool) (hid : id ≠ "")
    (h : (Store.Create b now { body with ID := id }).2 =
        Except.ok (r, created)) :
    Handler.create b now id body =
      ((Store.Create b now { body with ID := id }).1,
       ⟨if created then 201 else 200, RespBody.record r⟩) := by
  rcases hsc : Store.Create b now { body with ID := id } with ⟨b', res⟩
  rw [hsc] at h
  have hres : res = Except.ok (r, created) := h
  subst hres
  simp only [Handler.create, if_neg hid, hsc]

/-- C9 witness: a first POST for id `"a"` on the empty store responds 201
with the stamped record; the retry responds 200 with the same record. -/
theorem C9_create_boundary_witness :
    Handler.create [] 5 "a" ⟨"", 1000, "USD", "dup", 0, 0⟩ =
      ((Store.Create [] 5 ⟨"a", 1000, "USD", "dup", 0, 0⟩).1,
       ⟨201, RespBody.record ⟨"a", 1000, "USD", "dup", 5, 5⟩⟩) ∧
    Handler.create [("a", ⟨"a", 1000, "USD", "dup", 5, 5⟩)] 8 "a"
        ⟨"", 42, "EUR", "other", 0, 0⟩ =
      ([("a", ⟨"a", 1000, "USD", "dup", 5, 5⟩)],
       ⟨200, RespBody.record ⟨"a", 1000, "USD", "dup", 5, 5⟩⟩) := by
  constructor
  · exact C9_create_boundary [] 5 "a" ⟨"", 1000, "USD", "dup", 0, 0⟩
      ⟨"a", 1000, "USD", "dup", 5, 5⟩ true (by decide) (by rfl)
  · exact C9_create_boundary [("a", ⟨"a", 1000, "USD", "dup", 5, 5⟩)] 8 "a"
      ⟨"", 42, "EUR", "other", 0, 0⟩ ⟨"a", 1000, "USD", "dup", 5, 5⟩ false
      (by decide) (by rfl)

/-- C10: Update frame property. For a present id, a successful `Update`
returns a record (persisted under the id when written) whose `ID` and
`CreatedAt` equal the stored ones, and the whole call is independent of the
payload's own `ID`, `CreatedAt` and `UpdatedAt`: two payloads agreeing on
Amount, Currency and Reason produce identical results and states. -/
theorem C10_update_frame (b : Bucket) (now : Nat) (id : String)
    (p q stored : Chargeback) (h : bucketGet b id = some stored) :
    (∀ b' r w, Store.Update b now id p = (b', Except.ok (r, w)) →
       r.ID = stored.ID ∧ r.CreatedAt = stored.CreatedAt ∧
       bucketGet b' id = some r) ∧
    (p.Amount = q.Amount → p.Currency = q.Currency → p.Reason = q.Reason →
       Store.Update b now id p = Store.Update b now id q) := by
  constructor
  · intro b' r w hup
    simp only [Store.Update, h] at hup
    by_cases hc : stored.Amount = p.Amount ∧ stored.Currency = p.Currency ∧
        stored.Reason = p.Reason
    · rw [if_pos hc] at hup
      simp only [Prod.mk.injEq, Except.ok.injEq] at hup
      obtain ⟨hb', hr, hw⟩ := hup
      subst hb'
      rw [← hr]
      exact ⟨rfl, rfl, h⟩
    · rw [if_neg hc] at hup
      simp only [Prod.mk.injEq, Except.ok.injEq] at hup
      obtain ⟨hb', hr, hw⟩ := hup
      subst hb'
      rw [← hr]
      exact ⟨rfl, rfl, bucketGet_put_self b id _⟩
  · intro hA hC hR
    simp only [Store.Update, hA, hC, hR]

/-- C10 witness: an effectful update of `"b"` keeps `ID = "b"` and
`CreatedAt = 3`; and two payloads differing only in their own ID and
timestamps produce identical calls. -/
theorem C10_update_frame_witness :
    ((⟨"b", 999, "EUR", "fraud", 3, 9⟩ : Chargeback).ID = recB.ID ∧
     (⟨"b", 999, "EUR", "fraud", 3, 9⟩ : Chargeback).CreatedAt =
       recB.CreatedAt ∧
     bucketGet (bucketPut bucketB "b" ⟨"b", 999, "EUR", "fraud", 3, 9⟩) "b" =
       some ⟨"b", 999, "EUR", "fraud", 3, 9⟩) ∧
    Store.Update bucketB 9 "b" ⟨"x", 999, "EUR", "fraud", 50, 60⟩ =
      Store.Update bucketB 9 "b" ⟨"", 999, "EUR", "fraud", 0, 0⟩ := by
  constructor
  · exact (C10_update_frame bucketB 9 "b" ⟨"", 999, "EUR", "fraud", 0, 0⟩
      ⟨"", 999, "EUR", "fraud", 0, 0⟩ recB (by decide)).1
      (bucketPut bucketB "b" ⟨"b", 999, "EUR", "fraud", 3, 9⟩)
      ⟨"b", 999, "EUR", "fraud", 3, 9⟩ true (by rfl)
  · exact (C10_update_frame bucketB 9 "b" ⟨"x", 999, "EUR", "fraud", 50, 60⟩
      ⟨"", 999, "EUR", "fraud", 0, 0⟩ recB (by decide)).2 rfl rfl rfl
